import Mathlib

/-!
Verification of the EVrouter core against its specification.

This file shallowly embeds the algorithmic core of the repository:

* `src/backend/app/utils/polyline.py` — the polyline codec,
* `src/backend/app/models/location.py`, `route.py` — the data model,
* `src/backend/app/services/route_service.py` — the charging pipeline.

Python floats carrying coordinates, distances and durations are modelled as
rationals (`ℚ`); Python's arbitrary-precision integers as `ℤ`/`ℕ`.  Characters
of a polyline string are modelled by their ASCII codes (`ord`/`chr` translate
between the two views), so a polyline is a `List ℕ`.  Python code that can
raise (`IndexError` on a truncated polyline) is modelled with `Option`.
-/

namespace EVrouter

/-! ### Polyline codec (`src/backend/app/utils/polyline.py`) -/

/-- The quantization step `int(round(lat * 1e5))` of `encode_coordinates`:
multiply the coordinate by `1e5` and round to the nearest integer (Python
rounds the float product; here the product is exact and `round` is Mathlib's
round-to-nearest). -/
def quantize (x : ℚ) : ℤ := round (x * 100000)

/-- The emit loop of `_encode_value`, run after the zig-zag transform:
while `value >= 0x20` emit `(0x20 | (value & 0x1f)) + 63` and do `value >>= 5`.
Since `value % 32 < 32`, `0x20 | (value & 0x1f) = 32 + value % 32`, and
`value >> 5 = value / 32`; the final character is `value + 63`. -/
def encodeChunks (value : ℕ) : List ℕ :=
  if h : 32 ≤ value then (95 + value % 32) :: encodeChunks (value / 32)
  else [value + 63]
termination_by value
decreasing_by exact Nat.div_lt_self (by omega) (by omega)

/-- Embedding of `_encode_value`: the zig-zag transform `~(value << 1) if value < 0 else
(value << 1)`, i.e. `-(2 * value) - 1` for negative input and `2 * value`
otherwise (always non-negative), followed by the emit loop. -/
def encodeValue (value : ℤ) : List ℕ :=
  encodeChunks (if value < 0 then (-(2 * value) - 1).toNat else (2 * value).toNat)

/-- The loop of `encode_coordinates`, carrying `prev_lat` and `prev_lng`
(the previously emitted quantized point, both starting at 0): each point is
quantized and the deltas from the previous point are encoded, latitude first. -/
def encodeAux : List (ℚ × ℚ) → ℤ → ℤ → List ℕ
  | [], _, _ => []
  | (lat, lng) :: rest, prev_lat, prev_lng =>
    let lat_int := quantize lat
    let lng_int := quantize lng
    encodeValue (lat_int - prev_lat) ++ encodeValue (lng_int - prev_lng) ++
      encodeAux rest lat_int lng_int

/-- Embedding of `encode_coordinates`: encode a list of `(lat, lng)` pairs as a polyline. -/
def encode_coordinates (coordinates : List (ℚ × ℚ)) : List ℕ :=
  encodeAux coordinates 0 0

/-- The accumulation loop of `_decode_value`: for each character `c`, let
`b = c - 63`; do `result |= (b & 0x1f) << shift` and `shift += 5`, stopping
after the first character with `b < 0x20`.  On a Python integer `b & 0x1f`
is `b.emod 32`, `x << shift` is `x * 2 ^ shift`, and — because the
accumulated `result` always lies in `[0, 2 ^ shift)` — the bitwise or is
addition.  Reading past the end of the string raises `IndexError` in Python,
modelled by `none`. -/
def decodeChunks : List ℕ → ℕ → ℤ → Option (ℤ × List ℕ)
  | [], _, _ => none
  | c :: rest, shift, result =>
    let b : ℤ := (c : ℤ) - 63
    let result : ℤ := result + b % 32 * 2 ^ shift
    if b < 32 then some (result, rest) else decodeChunks rest (shift + 5) result

/-- Embedding of `_decode_value`: run the accumulation loop from `shift = 0`, `result = 0`,
then undo the zig-zag transform: `~(result >> 1) if result & 1 else
(result >> 1)`.  The accumulated `result` is never negative, so `result >> 1`
is `result / 2` and `~(result >> 1)` is `-(result / 2) - 1`. -/
def decodeValue (polyline : List ℕ) : Option (ℤ × List ℕ) :=
  (decodeChunks polyline 0 0).map fun p =>
    (if p.1 % 2 = 1 then -(p.1 / 2) - 1 else p.1 / 2, p.2)

/-- The `while i < len(polyline)` loop of `decode_polyline`, carrying the
running absolute integer latitude and longitude: each iteration decodes a
latitude delta and a longitude delta, accumulates them, and emits
`(lat / 1e5, lng / 1e5)`. -/
def decodeAux (polyline : List ℕ) (lat lng : ℤ) : Option (List (ℚ × ℚ)) :=
  match polyline with
  | [] => some []
  | c :: rest =>
    match h1 : decodeValue (c :: rest) with
    | none => none
    | some (d_lat, rest1) =>
      match h2 : decodeValue rest1 with
      | none => none
      | some (d_lng, rest2) =>
        match decodeAux rest2 (lat + d_lat) (lng + d_lng) with
        | none => none
        | some coordinates =>
          some ((((lat + d_lat : ℤ) : ℚ) / 100000,
                 ((lng + d_lng : ℤ) : ℚ) / 100000) :: coordinates)
termination_by polyline.length
decreasing_by
  have key : ∀ (l : List ℕ) (shift : ℕ) (acc v : ℤ) (r : List ℕ),
      decodeChunks l shift acc = some (v, r) → r.length < l.length := by
    intro l
    induction l with
    | nil => intro _ _ _ _ h; simp [decodeChunks] at h
    | cons c cs ih =>
      intro shift acc v r h
      simp only [decodeChunks] at h
      split at h
      · cases h; simp
      · have := ih _ _ _ _ h
        simp at this ⊢
        omega
  have key2 : ∀ (l : List ℕ) (v : ℤ) (r : List ℕ),
      decodeValue l = some (v, r) → r.length < l.length := by
    intro l v r h
    unfold decodeValue at h
    cases hc : decodeChunks l 0 0 with
    | none => rw [hc] at h; cases h
    | some p =>
      obtain ⟨r0, rest0⟩ := p
      rw [hc] at h
      simp only [Option.map_some', Option.some.injEq, Prod.mk.injEq] at h
      obtain ⟨-, hrest⟩ := h
      subst hrest
      exact key l 0 0 r0 _ hc
  have l1 := key2 _ _ _ h1
  have l2 := key2 _ _ _ h2
  simp only [List.length_cons] at l1 ⊢
  omega

/-- Embedding of `decode_polyline`: decode a polyline into `(lat, lng)` pairs. -/
def decode_polyline (polyline : List ℕ) : Option (List (ℚ × ℚ)) :=
  decodeAux polyline 0 0

/-- A coordinate pair after a round trip through the codec: each component is
quantized to integer `1e-5`-degree units and divided back by `1e5`. -/
def quantizedPoint (p : ℚ × ℚ) : ℚ × ℚ :=
  ((quantize p.1 : ℚ) / 100000, (quantize p.2 : ℚ) / 100000)

/-! ### Data model (`src/backend/app/models/location.py`, `route.py`)

Pydantic `BaseModel`s become structures; `Optional[T]` fields with default
`None` become `Option` fields defaulting to `none`.  Pydantic (both major
versions) ignores unknown keyword arguments by default, a fact the
range-analysis stage relies on below. -/

structure Location where
  latitude : ℚ
  longitude : ℚ
  name : Option String := none
  address : Option String := none
deriving DecidableEq, Repr

structure RouteSegment where
  start_location : Location
  end_location : Location
  distance : ℚ
  duration : ℚ
  is_charging_stop : Bool := false
  charging_time : Option ℚ := none
  charge_to_level : Option ℚ := none
  polyline : Option String := none
deriving DecidableEq, Repr

structure ChargingStop where
  location : Location
  charging_time : ℚ
  charge_to_level : ℚ
deriving DecidableEq, Repr

structure RouteResponse where
  route_segments : List RouteSegment
  total_distance : ℚ
  total_duration : ℚ
  charging_stops : List ChargingStop
deriving DecidableEq, Repr

/-! ### Charging pipeline (`src/backend/app/services/route_service.py`) -/

/-- The loop of `_analyze_range`, carrying `remaining_range`.  Each iteration
computes `range_sufficient = segment.distance <= remaining_range`, copies the
segment through `segment.dict()` extended with a `range_sufficient` key, and
rebuilds it with `RouteSegment(**segment_copy)`.  The pydantic `RouteSegment`
model declares no `range_sufficient` field and ignores unknown keys, so the
rebuilt segment carries exactly the fields of the original: the copy is the
original segment, and the computed flag is dropped. -/
def analyzeAux : List RouteSegment → ℚ → List RouteSegment
  | [], _ => []
  | segment :: rest, remaining_range =>
    let range_sufficient : Bool := decide (segment.distance ≤ remaining_range)
    let segment_copy : RouteSegment := segment
    segment_copy ::
      analyzeAux rest
        (if range_sufficient then remaining_range - segment.distance
         else remaining_range)

/-- Embedding of `_analyze_range`: the range-analysis pass over the segments. -/
def analyze_range (route_segments : List RouteSegment) (vehicle_range : ℚ) :
    List RouteSegment :=
  analyzeAux route_segments vehicle_range

/-- Embedding of `_find_nearest_charging_station`: always returns a simulated charging
station at exactly the query coordinates; `location.name or 'location'`
falls back when the name is `None` or empty. -/
def find_nearest_charging_station (location : Location) : Location :=
  { latitude := location.latitude
    longitude := location.longitude
    name := some ("Charging Station near " ++
      (match location.name with
       | some n => if n = "" then "location" else n
       | none => "location"))
    address := some "123 Charge St" }

/-- The synthetic charging-stop segment built in `_insert_charging_stops` for
an unreachable segment: zero distance, zero duration, charging fields unset,
running from the segment's start to the fabricated station. -/
def chargingSegmentFor (segment : RouteSegment) : RouteSegment :=
  { start_location := segment.start_location
    end_location := find_nearest_charging_station segment.start_location
    distance := 0
    duration := 0
    is_charging_stop := true
    charging_time := none
    charge_to_level := none }

/-- The loop of `_insert_charging_stops`, carrying `remaining_range` (started
at `vehicle_range`): a segment within remaining range is appended and the
range decreased; otherwise a charging-stop segment is appended, then the
segment, and the range becomes `vehicle_range - segment.distance` (charge to
full, then drive the segment). -/
def insertAux : List RouteSegment → ℚ → ℚ → List RouteSegment
  | [], _, _ => []
  | segment :: rest, remaining_range, vehicle_range =>
    if segment.distance ≤ remaining_range then
      segment :: insertAux rest (remaining_range - segment.distance) vehicle_range
    else
      chargingSegmentFor segment :: segment ::
        insertAux rest (vehicle_range - segment.distance) vehicle_range

/-- Embedding of `_insert_charging_stops`. -/
def insert_charging_stops (route_segments : List RouteSegment)
    (vehicle_range : ℚ) : List RouteSegment :=
  insertAux route_segments vehicle_range vehicle_range

/-- The update applied by `_calculate_charging_requirements` to a
charging-stop segment with a following segment:
`charge_to_level = min(100, (next.distance / 300) * 100 + 20)`,
`charging_time = (charge_to_level / 20) * 15`, and the stop's `duration` is
set to `charging_time`. -/
def updateChargingSegment (segment next_segment : RouteSegment) : RouteSegment :=
  let charge_to_level : ℚ := min 100 (next_segment.distance / 300 * 100 + 20)
  let charging_time : ℚ := charge_to_level / 20 * 15
  { segment with
    charging_time := some charging_time
    charge_to_level := some charge_to_level
    duration := charging_time }

/-- Embedding of `_calculate_charging_requirements`.  The Python loop walks the list by
index and assigns `route_segments[i] = RouteSegment(**updated_segment)` in
place, returning the same (mutated) list object; each replaced entry depends
only on the original entries `i` and `i + 1` (entry `i + 1` is read before the
loop reaches it), so the returned list is this per-position map: a
charging-stop entry with a following entry is replaced by its update, every
other entry — including a trailing charging stop — is left as it was. -/
def calculate_charging_requirements : List RouteSegment → List RouteSegment
  | [] => []
  | [segment] => [segment]
  | segment :: next_segment :: rest =>
    (if segment.is_charging_stop then updateChargingSegment segment next_segment
     else segment) :: calculate_charging_requirements (next_segment :: rest)

/-- Embedding of `_extract_charging_stops`: collect, in order, every segment with
`is_charging_stop` true and both `charging_time` and `charge_to_level` set,
as a `ChargingStop` at the segment's end location. -/
def extract_charging_stops : List RouteSegment → List ChargingStop
  | [] => []
  | segment :: rest =>
    match segment.is_charging_stop, segment.charging_time,
        segment.charge_to_level with
    | true, some ct, some ctl =>
      { location := segment.end_location
        charging_time := ct
        charge_to_level := ctl } :: extract_charging_stops rest
    | _, _, _ => extract_charging_stops rest

/-- Embedding of `calculate_route`, steps 2–5.  Step 1 (`_get_basic_route`) is an external
map-service/graph call outside the algorithmic core, so the basic route it
returns is taken here as the input.  No validation of any kind is performed:
every basic route and every vehicle range, positive or not, flows straight
into the pipeline and produces a `RouteResponse`. -/
def calculate_route (basic_route : List RouteSegment) (vehicle_range : ℚ) :
    RouteResponse :=
  let segments_with_range := analyze_range basic_route vehicle_range
  let final_route := insert_charging_stops segments_with_range vehicle_range
  let route_with_charging := calculate_charging_requirements final_route
  { route_segments := route_with_charging
    total_distance := (route_with_charging.map RouteSegment.distance).sum
    total_duration := (route_with_charging.map RouteSegment.duration).sum
    charging_stops := extract_charging_stops route_with_charging }

/-! ### Example route used by the witnesses (the scenario of spec section 8:
legs of 250 km and 100 km against a 300 km range). -/

def locA : Location := { latitude := 0, longitude := 0 }

def locB : Location := { latitude := 1, longitude := 1 }

def locC : Location := { latitude := 2, longitude := 2 }

def legAB : RouteSegment :=
  { start_location := locA, end_location := locB, distance := 250, duration := 250 }

def legBC : RouteSegment :=
  { start_location := locB, end_location := locC, distance := 100, duration := 100 }

/-- A location whose latitude and longitude are far outside the valid
ranges; the `Location` model (like the pydantic one) imposes no bounds. -/
def badLocation : Location := { latitude := 999, longitude := -999 }

def badLeg : RouteSegment :=
  { start_location := badLocation, end_location := badLocation,
    distance := 10, duration := 10 }

/-! ### Theorems -/

theorem decodeChunks_cons (c : ℕ) (rest : List ℕ) (shift : ℕ) (acc : ℤ) :
    decodeChunks (c :: rest) shift acc =
      if ((c : ℤ) - 63) < 32 then
        some (acc + ((c : ℤ) - 63) % 32 * 2 ^ shift, rest)
      else decodeChunks rest (shift + 5) (acc + ((c : ℤ) - 63) % 32 * 2 ^ shift) :=
  rfl

theorem decodeChunks_encodeChunks (v : ℕ) :
    ∀ (rest : List ℕ) (shift : ℕ) (acc : ℤ),
      decodeChunks (encodeChunks v ++ rest) shift acc =
        some (acc + (v : ℤ) * 2 ^ shift, rest) := by
  induction v using Nat.strong_induction_on with
  | _ v ih =>
    intro rest shift acc
    rw [encodeChunks]
    by_cases h : 32 ≤ v
    · rw [dif_pos h, List.cons_append, decodeChunks_cons]
      have hmask : (((95 + v % 32 : ℕ) : ℤ) - 63) % 32 = (v : ℤ) % 32 := by
        push_cast; omega
      rw [if_neg (by push_cast; omega), hmask,
        ih (v / 32) (Nat.div_lt_self (by omega) (by omega))]
      congr 2
      have h32 : (v : ℤ) % 32 + 32 * ((v : ℤ) / 32) = v := Int.emod_add_ediv v 32
      push_cast
      linear_combination (2 : ℤ) ^ shift * h32
    · rw [dif_neg h, List.cons_append, decodeChunks_cons,
        if_pos (by push_cast; omega)]
      have hmask : (((v + 63 : ℕ) : ℤ) - 63) % 32 = (v : ℤ) := by push_cast; omega
      rw [hmask]
      simp

theorem decodeValue_encodeValue (v : ℤ) (rest : List ℕ) :
    decodeValue (encodeValue v ++ rest) = some (v, rest) := by
  unfold decodeValue encodeValue
  rw [decodeChunks_encodeChunks]
  simp only [Option.map_some', Option.some.injEq, Prod.mk.injEq, pow_zero,
    mul_one, zero_add, and_true]
  by_cases hv : v < 0
  · rw [if_pos hv, Int.toNat_of_nonneg (by omega)]
    split <;> omega
  · rw [if_neg hv, Int.toNat_of_nonneg (by omega)]
    split <;> omega

theorem encodeChunks_ne_nil (v : ℕ) : encodeChunks v ≠ [] := by
  rw [encodeChunks]
  split <;> simp

theorem encodeValue_ne_nil (v : ℤ) : encodeValue v ≠ [] :=
  encodeChunks_ne_nil _

theorem decodeAux_encodeAux (coordinates : List (ℚ × ℚ)) :
    ∀ (prev_lat prev_lng : ℤ),
      decodeAux (encodeAux coordinates prev_lat prev_lng) prev_lat prev_lng =
        some (coordinates.map quantizedPoint) := by
  induction coordinates with
  | nil =>
    intro a b
    rw [decodeAux.eq_def]
    rfl
  | cons p rest ih =>
    intro prev_lat prev_lng
    obtain ⟨lat, lng⟩ := p
    have henc : encodeAux ((lat, lng) :: rest) prev_lat prev_lng =
        encodeValue (quantize lat - prev_lat) ++
          (encodeValue (quantize lng - prev_lng) ++
            encodeAux rest (quantize lat) (quantize lng)) := by
      simp [encodeAux, List.append_assoc]
    rw [henc, decodeAux.eq_def]
    split
    next heq =>
      exact absurd (List.append_eq_nil.mp heq).1 (encodeValue_ne_nil _)
    next c cs heq =>
      rw [← heq]
      split
      next h1 =>
        rw [decodeValue_encodeValue] at h1
        cases h1
      next d_lat rest1 h1 =>
        rw [decodeValue_encodeValue] at h1
        simp only [Option.some.injEq, Prod.mk.injEq] at h1
        obtain ⟨hd, hr⟩ := h1
        subst hd
        subst hr
        split
        next h2 =>
          rw [decodeValue_encodeValue] at h2
          cases h2
        next d_lng rest2 h2 =>
          rw [decodeValue_encodeValue] at h2
          simp only [Option.some.injEq, Prod.mk.injEq] at h2
          obtain ⟨hd2, hr2⟩ := h2
          subst hd2
          subst hr2
          have e1 : prev_lat + (quantize lat - prev_lat) = quantize lat := by ring
          have e2 : prev_lng + (quantize lng - prev_lng) = quantize lng := by ring
          rw [e1, e2, ih]
          simp [quantizedPoint]

theorem quantize_close (x : ℚ) : |(quantize x : ℚ) / 100000 - x| ≤ 1 / 100000 := by
  unfold quantize
  have h : |((round (x * 100000) : ℤ) : ℚ) - x * 100000| ≤ 1 / 2 := by
    rw [abs_sub_comm]
    exact abs_sub_round (x * 100000)
  have hshape : ((round (x * 100000) : ℤ) : ℚ) / 100000 - x =
      (((round (x * 100000) : ℤ) : ℚ) - x * 100000) / 100000 := by ring
  rw [hshape, abs_div, abs_of_pos (by norm_num : (0 : ℚ) < 100000)]
  linarith

/-- C1: decoding the string produced by encoding any finite coordinate sequence
succeeds and yields a sequence of the same length in which each coordinate is
exactly the original rounded to the nearest `1e-5` degrees — hence within
`1e-5` degrees of the original; this covers negative coordinates and zero
deltas, since the encoder is quantified over all rational inputs. -/
theorem polyline_roundtrip (coordinates : List (ℚ × ℚ)) :
    decode_polyline (encode_coordinates coordinates) =
      some (coordinates.map quantizedPoint) ∧
    (coordinates.map quantizedPoint).length = coordinates.length ∧
    ∀ p ∈ coordinates,
      |(quantizedPoint p).1 - p.1| ≤ 1 / 100000 ∧
      |(quantizedPoint p).2 - p.2| ≤ 1 / 100000 := by
  refine ⟨decodeAux_encodeAux coordinates 0 0, List.length_map _ _, ?_⟩
  intro p _
  exact ⟨quantize_close p.1, quantize_close p.2⟩

/-- Witness for C1 at a concrete sequence with a negative coordinate and a
zero longitude delta. -/
theorem polyline_roundtrip_witness :
    decode_polyline (encode_coordinates [((-385 : ℚ)/10, 1202/10), (0, 1202/10)]) =
      some ([((-385 : ℚ)/10, 1202/10), (0, 1202/10)].map quantizedPoint) ∧
    |(quantizedPoint ((-385 : ℚ)/10, 1202/10)).1 - (-385 : ℚ)/10| ≤ 1 / 100000 := by
  refine ⟨(polyline_roundtrip _).1, ?_⟩
  exact ((polyline_roundtrip [((-385 : ℚ)/10, 1202/10), (0, 1202/10)]).2.2
    ((-385 : ℚ)/10, 1202/10) (by simp)).1

/-! ### Range analysis (C5) -/

theorem analyzeAux_eq_self (route_segments : List RouteSegment) :
    ∀ remaining_range : ℚ,
      analyzeAux route_segments remaining_range = route_segments := by
  induction route_segments with
  | nil => intro r; rfl
  | cons s rest ih => intro r; simp [analyzeAux, ih]

theorem analyze_range_id (route_segments : List RouteSegment) (vehicle_range : ℚ) :
    analyze_range route_segments vehicle_range = route_segments :=
  analyzeAux_eq_self route_segments vehicle_range

/-- C5 (code divergence): the range-analysis stage returns its input segments
unchanged — in particular they carry no observable `range_sufficient`
annotation, because the pydantic `RouteSegment` model has no such field and
silently drops the unknown key that `_analyze_range` adds to the segment
dict.  The docstring of `_analyze_range` ("Add a range_sufficient boolean
property to each segment") and the spec are contradicted by this behaviour. -/
theorem analyze_range_returns_input_unannotated :
    ∀ (route_segments : List RouteSegment) (vehicle_range : ℚ),
      analyze_range route_segments vehicle_range = route_segments :=
  fun route_segments vehicle_range => analyzeAux_eq_self route_segments vehicle_range

/-! ### Charging-stop insertion (C2) -/

theorem insertAux_sublist (route_segments : List RouteSegment) :
    ∀ (remaining_range vehicle_range : ℚ),
      route_segments.Sublist (insertAux route_segments remaining_range vehicle_range) := by
  induction route_segments with
  | nil => intro _ _; simp [insertAux]
  | cons s rest ih =>
    intro rem R
    rw [insertAux]
    split
    · exact List.Sublist.cons₂ s (ih _ _)
    · exact List.Sublist.cons _ (List.Sublist.cons₂ s (ih _ _))

theorem insertAux_length (route_segments : List RouteSegment) :
    ∀ (remaining_range vehicle_range : ℚ),
      route_segments.length ≤
          (insertAux route_segments remaining_range vehicle_range).length ∧
        (insertAux route_segments remaining_range vehicle_range).length ≤
          2 * route_segments.length := by
  induction route_segments with
  | nil => intro _ _; simp [insertAux]
  | cons s rest ih =>
    intro rem R
    rw [insertAux]
    split
    · have := ih (rem - s.distance) R
      simp only [List.length_cons]
      omega
    · have := ih (R - s.distance) R
      simp only [List.length_cons]
      omega

theorem insertAux_chain' (route_segments : List RouteSegment)
    (hclean : ∀ s ∈ route_segments, s.is_charging_stop = false) :
    ∀ (remaining_range vehicle_range : ℚ),
      List.Chain' (fun a b => a.is_charging_stop = false ∨ b.is_charging_stop = false)
        (insertAux route_segments remaining_range vehicle_range) := by
  induction route_segments with
  | nil => intro _ _; simp [insertAux]
  | cons s rest ih =>
    intro rem R
    have hs : s.is_charging_stop = false := hclean s (by simp)
    have hrest : ∀ t ∈ rest, t.is_charging_stop = false :=
      fun t ht => hclean t (by simp [ht])
    rw [insertAux]
    split
    · exact List.chain'_cons'.mpr ⟨fun y _ => Or.inl hs, ih hrest _ _⟩
    · refine List.chain'_cons.mpr ⟨Or.inr hs, ?_⟩
      exact List.chain'_cons'.mpr ⟨fun y _ => Or.inl hs, ih hrest _ _⟩

/-- C2: the inserter walks the legs with remaining range starting at `R`;
a leg within remaining range is appended unchanged with no stop before it
and the remaining range decreases by its distance; a leg beyond remaining
range gets exactly one synthetic charging-stop leg (distance 0, duration 0)
inserted immediately before it, after which the remaining range is `R` minus
the leg's distance.  Consequently the output is at least as long as the
input (and at most twice as long), the original legs occur in it unchanged
and in order (as a sublist), and — when the input legs are normal driving
legs — no two consecutive output legs are charging stops. -/
theorem insert_charging_stops_spec (route_segments : List RouteSegment)
    (R : ℚ) (hR : 0 < R) :
    (∀ (segment : RouteSegment) (rest : List RouteSegment) (remaining : ℚ),
      (segment.distance ≤ remaining →
        insertAux (segment :: rest) remaining R =
          segment :: insertAux rest (remaining - segment.distance) R) ∧
      (¬ segment.distance ≤ remaining →
        insertAux (segment :: rest) remaining R =
          chargingSegmentFor segment :: segment ::
            insertAux rest (R - segment.distance) R ∧
        (chargingSegmentFor segment).distance = 0 ∧
        (chargingSegmentFor segment).duration = 0 ∧
        (chargingSegmentFor segment).is_charging_stop = true)) ∧
    route_segments.Sublist (insert_charging_stops route_segments R) ∧
    route_segments.length ≤ (insert_charging_stops route_segments R).length ∧
    (insert_charging_stops route_segments R).length ≤ 2 * route_segments.length ∧
    ((∀ s ∈ route_segments, s.is_charging_stop = false) →
      List.Chain' (fun a b => a.is_charging_stop = false ∨ b.is_charging_stop = false)
        (insert_charging_stops route_segments R)) := by
  refine ⟨?_, insertAux_sublist _ _ _, (insertAux_length _ _ _).1,
    (insertAux_length _ _ _).2, fun hclean => insertAux_chain' _ hclean _ _⟩
  intro segment rest remaining
  constructor
  · intro hle
    rw [insertAux, if_pos hle]
  · intro hgt
    exact ⟨by rw [insertAux, if_neg hgt], rfl, rfl, rfl⟩

/-- Witness for C2 on the spec's worked scenario. -/
theorem insert_charging_stops_spec_witness :
    ([legAB, legBC] : List RouteSegment).Sublist
        (insert_charging_stops [legAB, legBC] 300) ∧
      List.Chain' (fun a b => a.is_charging_stop = false ∨ b.is_charging_stop = false)
        (insert_charging_stops [legAB, legBC] 300) := by
  have h := insert_charging_stops_spec [legAB, legBC] 300 (by norm_num)
  exact ⟨h.2.1, h.2.2.2.2 (by decide)⟩

/-! ### Charging-requirement calculation (C3) -/

theorem calculate_charging_requirements_getElem? (segs : List RouteSegment) :
    ∀ i : ℕ, (calculate_charging_requirements segs)[i]? =
      match segs[i]?, segs[i + 1]? with
      | some s, some next =>
        some (if s.is_charging_stop then updateChargingSegment s next else s)
      | some s, none => some s
      | none, _ => none := by
  induction segs with
  | nil => intro i; simp [calculate_charging_requirements]
  | cons s rest ih =>
    cases rest with
    | nil =>
      intro i
      cases i with
      | zero => rfl
      | succ j => simp [calculate_charging_requirements]
    | cons next rest2 =>
      intro i
      cases i with
      | zero => simp [calculate_charging_requirements]
      | succ j =>
        have step : (calculate_charging_requirements (s :: next :: rest2))[j + 1]? =
            (calculate_charging_requirements (next :: rest2))[j]? := by
          rw [calculate_charging_requirements]
          exact List.getElem?_cons_succ
        rw [step, ih j]
        simp only [List.getElem?_cons_succ]

theorem calculate_charging_requirements_length (segs : List RouteSegment) :
    (calculate_charging_requirements segs).length = segs.length := by
  induction segs with
  | nil => rfl
  | cons s rest ih =>
    cases rest with
    | nil => rfl
    | cons next rest2 =>
      rw [calculate_charging_requirements]
      simp only [List.length_cons] at ih ⊢
      omega

/-- C3: on every charging-stop leg followed by another leg of distance `D`,
the requirement calculator sets
`charge_to_level = min 100 (D / 300 * 100 + 20)`,
`charging_time = charge_to_level / 20 * 15`, and sets the stop's `duration`
to `charging_time`; for `D ≥ 0` the level lies in `[0, 100]` and the time is
nonnegative; a trailing leg with no follower — in particular a trailing
charging stop, whose fields the inserter left at `none`/`0` — is returned
exactly as it was, its fields still unset and its duration still `0`. -/
theorem calculate_charging_requirements_spec (segs : List RouteSegment)
    (i : ℕ) (s next : RouteSegment)
    (hs : segs[i]? = some s) (hnext : segs[i + 1]? = some next)
    (hstop : s.is_charging_stop = true) :
    (calculate_charging_requirements segs)[i]? =
      some { s with
        charging_time := some (min 100 (next.distance / 300 * 100 + 20) / 20 * 15)
        charge_to_level := some (min 100 (next.distance / 300 * 100 + 20))
        duration := min 100 (next.distance / 300 * 100 + 20) / 20 * 15 } ∧
    (0 ≤ next.distance →
      0 ≤ min 100 (next.distance / 300 * 100 + 20) ∧
      min 100 (next.distance / 300 * 100 + 20) ≤ 100 ∧
      0 ≤ min 100 (next.distance / 300 * 100 + 20) / 20 * 15) ∧
    (∀ (j : ℕ) (t : RouteSegment), segs[j]? = some t → segs[j + 1]? = none →
      (calculate_charging_requirements segs)[j]? = some t) := by
  refine ⟨?_, ?_, ?_⟩
  · rw [calculate_charging_requirements_getElem?, hs, hnext]
    simp [hstop, updateChargingSegment]
  · intro hD
    have h0 : 0 ≤ next.distance / 300 * 100 :=
      mul_nonneg (div_nonneg hD (by norm_num)) (by norm_num)
    have hctl : 0 ≤ min 100 (next.distance / 300 * 100 + 20) :=
      le_min (by norm_num) (by linarith)
    exact ⟨hctl, min_le_left _ _,
      mul_nonneg (div_nonneg hctl (by norm_num)) (by norm_num)⟩
  · intro j t hj hnone
    rw [calculate_charging_requirements_getElem?, hj, hnone]

/-- Witness for C3: the inserted stop before the 100 km leg is charged to
level `min 100 (100 / 300 * 100 + 20)` and its duration becomes the charging
time. -/
theorem calculate_charging_requirements_spec_witness :
    (calculate_charging_requirements [chargingSegmentFor legBC, legBC])[0]? =
      some { chargingSegmentFor legBC with
        charging_time := some (min 100 (legBC.distance / 300 * 100 + 20) / 20 * 15)
        charge_to_level := some (min 100 (legBC.distance / 300 * 100 + 20))
        duration := min 100 (legBC.distance / 300 * 100 + 20) / 20 * 15 } ∧
    0 ≤ min 100 (legBC.distance / 300 * 100 + 20) := by
  have h := calculate_charging_requirements_spec
    [chargingSegmentFor legBC, legBC] 0 (chargingSegmentFor legBC) legBC
    rfl rfl rfl
  exact ⟨h.1, (h.2.1 (by decide)).1⟩

/-! ### Total distance (C4) -/

theorem insertAux_map_distance (route_segments : List RouteSegment) :
    ∀ (remaining_range vehicle_range : ℚ),
      ((insertAux route_segments remaining_range vehicle_range).map
          RouteSegment.distance).sum =
        (route_segments.map RouteSegment.distance).sum := by
  induction route_segments with
  | nil => intro _ _; simp [insertAux]
  | cons s rest ih =>
    intro rem R
    rw [insertAux]
    split
    · simp [ih]
    · simp [ih, chargingSegmentFor]

theorem calculate_charging_requirements_map_distance (segs : List RouteSegment) :
    (calculate_charging_requirements segs).map RouteSegment.distance =
      segs.map RouteSegment.distance := by
  induction segs with
  | nil => rfl
  | cons s rest ih =>
    cases rest with
    | nil => rfl
    | cons next rest2 =>
      rw [calculate_charging_requirements]
      simp only [List.map_cons] at ih ⊢
      rw [ih]
      congr 1
      split
      · rfl
      · rfl

/-- C4: the total distance of the assembled route equals the sum of the
distances of the original input legs: the analysis pass returns the legs
unchanged, every inserted charging stop has distance 0, and the requirement
calculator never touches a distance. -/
theorem total_distance_preserved (basic_route : List RouteSegment) (R : ℚ)
    (hR : 0 < R) :
    (calculate_route basic_route R).total_distance =
      (basic_route.map RouteSegment.distance).sum := by
  show ((calculate_charging_requirements
      (insert_charging_stops (analyze_range basic_route R) R)).map
        RouteSegment.distance).sum = _
  rw [calculate_charging_requirements_map_distance, analyze_range_id]
  exact insertAux_map_distance basic_route R R

/-- Witness for C4 on the worked scenario: 250 + 100 km. -/
theorem total_distance_preserved_witness :
    (calculate_route [legAB, legBC] 300).total_distance =
      ([legAB, legBC].map RouteSegment.distance).sum :=
  total_distance_preserved [legAB, legBC] 300 (by norm_num)

/-! ### Frame behaviour of the stages (C8) -/

/-- Counterexample to C8: the requirement-calculation stage does not leave
the sequence passed to it unchanged.  In the Python implementation the loop
assigns `route_segments[i] = RouteSegment(**updated_segment)` into its input
list and returns that same list object, so the sequence the caller passed in
is, after the call, the changed sequence modelled here — and on a route with
one charging stop it differs from the sequence before the call. -/
theorem calculate_charging_requirements_changes_sequence :
    calculate_charging_requirements [chargingSegmentFor legBC, legBC] ≠
      [chargingSegmentFor legBC, legBC] := by
  intro h
  have h0 := congrArg (fun l => (l.head?).map RouteSegment.charging_time) h
  simp [calculate_charging_requirements, updateChargingSegment,
    chargingSegmentFor] at h0

/-- C8 amended: the range-analysis and insertion stages build fresh output
sequences (analysis in fact returns its input unchanged, insertion returns a
strictly interleaved new list), and no individual segment object is ever
mutated — but the requirement-calculation stage updates its input sequence in
place and returns it, replacing exactly the charging-stop entries that have a
following entry with updated copies; every other entry, and every entry of
the other stages' inputs, is left as it was. -/
theorem pipeline_stage_frame (segs : List RouteSegment) :
    (calculate_charging_requirements segs).length = segs.length ∧
    (∀ R : ℚ, analyze_range segs R = segs) ∧
    (∀ (i : ℕ) (s : RouteSegment), segs[i]? = some s →
      s.is_charging_stop = false →
      (calculate_charging_requirements segs)[i]? = some s) ∧
    (∀ (i : ℕ) (s : RouteSegment), segs[i]? = some s → segs[i + 1]? = none →
      (calculate_charging_requirements segs)[i]? = some s) := by
  refine ⟨calculate_charging_requirements_length segs,
    fun R => analyzeAux_eq_self segs R, ?_, ?_⟩
  · intro i s hi hstop
    rw [calculate_charging_requirements_getElem?, hi]
    cases hnext : segs[i + 1]? with
    | none => rfl
    | some next => simp [hstop]
  · intro i s hi hnone
    rw [calculate_charging_requirements_getElem?, hi, hnone]

/-- Witness for C8 (amended): a driving leg entry is preserved by the
requirement-calculation stage. -/
theorem pipeline_stage_frame_witness :
    (calculate_charging_requirements [chargingSegmentFor legBC, legBC])[1]? =
      some legBC :=
  (pipeline_stage_frame [chargingSegmentFor legBC, legBC]).2.2.1 1 legBC rfl rfl

/-! ### Charging-station lookup (C6) -/

/-- C6 (code divergence): the charging-station lookup is a total function
that never signals failure.  For every query location it fabricates a
simulated station at exactly the query coordinates, and the insertion step
proceeds with that fabricated station as the end location of the inserted
charging stop — no distinct error is ever surfaced to the caller. -/
theorem find_nearest_charging_station_fabricates (location : Location) :
    (find_nearest_charging_station location).latitude = location.latitude ∧
    (find_nearest_charging_station location).longitude = location.longitude ∧
    ∀ segment : RouteSegment,
      (chargingSegmentFor segment).end_location =
        find_nearest_charging_station segment.start_location :=
  ⟨rfl, rfl, fun _ => rfl⟩

/-! ### Input validation (C7) -/

/-- C7 (code divergence): `calculate_route` performs no input validation.
An empty leg sequence together with a negative vehicle range produces an
ordinary empty success response (not an error), and a leg with an
out-of-range latitude/longitude flows through the whole pipeline and is
returned in a success response. -/
theorem calculate_route_accepts_invalid_input :
    calculate_route [] (-5) =
      { route_segments := [], total_distance := 0, total_duration := 0,
        charging_stops := [] } ∧
    (calculate_route [badLeg] 300).route_segments = [badLeg] := by
  constructor
  · rfl
  · rfl

/-! ### Structure of the inserter and calculator outputs (towards C9, C10) -/

/-- On a route of normal driving legs, every charging-stop entry of the
inserter's output has its charging fields unset and is immediately followed
by a driving leg whose start point shares the latitude and longitude of the
stop's end location (the fabricated station is co-located with the start of
the leg that triggered the stop). -/
theorem insertAux_stop_facts (route_segments : List RouteSegment)
    (hclean : ∀ s ∈ route_segments, s.is_charging_stop = false) :
    ∀ (rem R : ℚ) (i : ℕ) (s : RouteSegment),
      (insertAux route_segments rem R)[i]? = some s →
      s.is_charging_stop = true →
      s.charging_time = none ∧ s.charge_to_level = none ∧
      ∃ next, (insertAux route_segments rem R)[i + 1]? = some next ∧
        next.is_charging_stop = false ∧
        s.end_location.latitude = next.start_location.latitude ∧
        s.end_location.longitude = next.start_location.longitude := by
  induction route_segments with
  | nil => intro rem R i s hi _; simp [insertAux] at hi
  | cons seg rest ih =>
    intro rem R i s hi hstop
    have hseg : seg.is_charging_stop = false := hclean seg (by simp)
    have hrest : ∀ t ∈ rest, t.is_charging_stop = false :=
      fun t ht => hclean t (by simp [ht])
    by_cases hc : seg.distance ≤ rem
    · rw [insertAux, if_pos hc] at hi ⊢
      cases i with
      | zero =>
        rw [List.getElem?_cons_zero] at hi
        simp only [Option.some.injEq] at hi
        subst hi
        simp [hseg] at hstop
      | succ j =>
        rw [List.getElem?_cons_succ] at hi
        obtain ⟨h1, h2, next, hn, hfacts⟩ := ih hrest _ R j s hi hstop
        exact ⟨h1, h2, next, by rw [List.getElem?_cons_succ]; exact hn, hfacts⟩
    · rw [insertAux, if_neg hc] at hi ⊢
      cases i with
      | zero =>
        rw [List.getElem?_cons_zero] at hi
        simp only [Option.some.injEq] at hi
        subst hi
        refine ⟨rfl, rfl, seg, ?_, hseg, rfl, rfl⟩
        rw [List.getElem?_cons_succ, List.getElem?_cons_zero]
      | succ i1 =>
        cases i1 with
        | zero =>
          rw [List.getElem?_cons_succ, List.getElem?_cons_zero] at hi
          simp only [Option.some.injEq] at hi
          subst hi
          simp [hseg] at hstop
        | succ j =>
          rw [List.getElem?_cons_succ, List.getElem?_cons_succ] at hi
          obtain ⟨h1, h2, next, hn, hfacts⟩ := ih hrest _ R j s hi hstop
          refine ⟨h1, h2, next, ?_, hfacts⟩
          rw [List.getElem?_cons_succ, List.getElem?_cons_succ]
          exact hn

/-- After the requirement pass over the inserter's output (on a clean route),
every charging-stop entry has both charging fields set and is immediately
followed by a driving leg co-located with the stop's end location. -/
theorem pipeline_stop_facts (basic_route : List RouteSegment) (R : ℚ)
    (hclean : ∀ s ∈ basic_route, s.is_charging_stop = false) :
    ∀ (i : ℕ) (s : RouteSegment),
      (calculate_charging_requirements (insertAux basic_route R R))[i]? = some s →
      s.is_charging_stop = true →
      s.charging_time.isSome = true ∧ s.charge_to_level.isSome = true ∧
      ∃ next,
        (calculate_charging_requirements (insertAux basic_route R R))[i + 1]? =
          some next ∧
        next.is_charging_stop = false ∧
        s.end_location.latitude = next.start_location.latitude ∧
        s.end_location.longitude = next.start_location.longitude := by
  intro i s hi hstop
  rw [calculate_charging_requirements_getElem?] at hi
  cases h0 : (insertAux basic_route R R)[i]? with
  | none => rw [h0] at hi; cases hi
  | some s0 =>
    cases h1 : (insertAux basic_route R R)[i + 1]? with
    | none =>
      rw [h0, h1] at hi
      simp only [Option.some.injEq] at hi
      subst hi
      obtain ⟨-, -, next, hn, -⟩ :=
        insertAux_stop_facts basic_route hclean R R i s0 h0 hstop
      rw [h1] at hn
      cases hn
    | some n0 =>
      rw [h0, h1] at hi
      simp only [Option.some.injEq] at hi
      by_cases hs0 : s0.is_charging_stop = true
      · rw [if_pos hs0] at hi
        subst hi
        obtain ⟨-, -, next, hn, hnstop, hlat, hlng⟩ :=
          insertAux_stop_facts basic_route hclean R R i s0 h0 hs0
        have hne : next = n0 := by
          rw [h1] at hn
          exact ((Option.some.injEq n0 next).mp hn).symm
        subst hne
        refine ⟨rfl, rfl, next, ?_, hnstop, hlat, hlng⟩
        rw [calculate_charging_requirements_getElem?, h1]
        cases h2 : (insertAux basic_route R R)[i + 1 + 1]? <;> simp [hnstop]
      · rw [if_neg hs0] at hi
        subst hi
        exact absurd hstop hs0

/-- The extraction stage is the filter-and-project over the segment list:
the stops appear in the summary in leg order. -/
theorem extract_charging_stops_eq (l : List RouteSegment) :
    extract_charging_stops l =
      (l.filter (fun s => s.is_charging_stop && s.charging_time.isSome &&
        s.charge_to_level.isSome)).map
        (fun s => { location := s.end_location,
                    charging_time := s.charging_time.getD 0,
                    charge_to_level := s.charge_to_level.getD 0 }) := by
  induction l with
  | nil => rfl
  | cons s rest ih =>
    cases hb : s.is_charging_stop <;> cases hct : s.charging_time <;>
      cases hctl : s.charge_to_level <;>
      simp [extract_charging_stops, hb, hct, hctl, ih, List.filter_cons]

theorem length_filter_eq_countP {α : Type} (p : α → Bool) (l : List α) :
    (l.filter p).length = l.countP p := by
  induction l with
  | nil => rfl
  | cons a t ih =>
    by_cases h : p a <;> simp [List.filter_cons, h, ih, List.countP_cons]

theorem calculate_route_segments_eq (basic_route : List RouteSegment) (R : ℚ) :
    (calculate_route basic_route R).route_segments =
      calculate_charging_requirements (insertAux basic_route R R) := by
  show calculate_charging_requirements
      (insert_charging_stops (analyze_range basic_route R) R) = _
  rw [analyze_range_id]
  rfl

theorem calculate_route_stops_eq (basic_route : List RouteSegment) (R : ℚ) :
    (calculate_route basic_route R).charging_stops =
      extract_charging_stops
        (calculate_charging_requirements (insertAux basic_route R R)) := by
  show extract_charging_stops (calculate_charging_requirements
      (insert_charging_stops (analyze_range basic_route R) R)) = _
  rw [analyze_range_id]
  rfl

/-- On a clean route, the last segment of the pipeline output is never a
charging stop: the inserter always appends the triggering driving leg right
after a stop. -/
theorem pipeline_last_not_stop (basic_route : List RouteSegment) (R : ℚ)
    (hclean : ∀ s ∈ basic_route, s.is_charging_stop = false) :
    ∀ s : RouteSegment,
      (calculate_charging_requirements (insertAux basic_route R R)).getLast? =
        some s →
      s.is_charging_stop = false := by
  intro s hlast
  by_contra hstop0
  rw [Bool.not_eq_false] at hstop0
  rw [List.getLast?_eq_getElem?] at hlast
  obtain ⟨hlt, -⟩ := List.getElem?_eq_some.mp hlast
  obtain ⟨-, -, next, hn, -⟩ :=
    pipeline_stop_facts basic_route R hclean _ s hlast hstop0
  rw [show (calculate_charging_requirements (insertAux basic_route R R)).length
      - 1 + 1 =
      (calculate_charging_requirements (insertAux basic_route R R)).length by
    omega] at hn
  rw [List.getElem?_eq_none (le_refl _)] at hn
  cases hn

/-- Every entry of the charging-stop summary is the filtered projection of a
charging-stop segment of the list, at that segment's end location. -/
theorem extract_charging_stops_mem (l : List RouteSegment) :
    ∀ st ∈ extract_charging_stops l,
      ∃ (i : ℕ) (s : RouteSegment), l[i]? = some s ∧ s.is_charging_stop = true ∧
        st.location = s.end_location := by
  intro st hst
  rw [extract_charging_stops_eq] at hst
  simp only [List.mem_map, List.mem_filter] at hst
  obtain ⟨s, ⟨hmem, hp⟩, hf⟩ := hst
  simp only [Bool.and_eq_true] at hp
  obtain ⟨i, hi⟩ := List.mem_iff_getElem?.mp hmem
  exact ⟨i, s, hi, hp.1.1, by rw [← hf]⟩

/-- C9: for every assembled route over normal driving legs, the charging-stop
summary has exactly one entry per charging-stop segment that is followed by
another leg (equivalently, per charging stop outside the last position — on
these routes every stop has a follower and a stop whose fields are set is
exactly a stop with a follower), it lists them in leg order as the filtered
projection of the segment list, and a stop's fields being set is equivalent
to it having a following leg. -/
theorem charging_stop_summary_spec (basic_route : List RouteSegment) (R : ℚ)
    (hR : 0 < R) (hclean : ∀ s ∈ basic_route, s.is_charging_stop = false) :
    (calculate_route basic_route R).charging_stops.length =
      ((calculate_route basic_route R).route_segments.dropLast.countP
        (fun s => s.is_charging_stop)) ∧
    (calculate_route basic_route R).charging_stops =
      ((calculate_route basic_route R).route_segments.filter
        (fun s => s.is_charging_stop && s.charging_time.isSome &&
          s.charge_to_level.isSome)).map
        (fun s => { location := s.end_location,
                    charging_time := s.charging_time.getD 0,
                    charge_to_level := s.charge_to_level.getD 0 }) ∧
    ∀ (i : ℕ) (s : RouteSegment),
      (calculate_route basic_route R).route_segments[i]? = some s →
      s.is_charging_stop = true →
      ((s.charging_time.isSome = true ∧ s.charge_to_level.isSome = true) ↔
        i + 1 < (calculate_route basic_route R).route_segments.length) := by
  rw [calculate_route_segments_eq, calculate_route_stops_eq]
  refine ⟨?_, extract_charging_stops_eq _, ?_⟩
  · rw [extract_charging_stops_eq, List.length_map, length_filter_eq_countP]
    have hcong : (calculate_charging_requirements (insertAux basic_route R R)).countP
        (fun s => s.is_charging_stop && s.charging_time.isSome &&
          s.charge_to_level.isSome) =
        (calculate_charging_requirements (insertAux basic_route R R)).countP
          (fun s => s.is_charging_stop) := by
      apply List.countP_congr
      intro x hx
      constructor
      · intro hpx
        simp only [Bool.and_eq_true] at hpx
        exact hpx.1.1
      · intro hstop
        obtain ⟨j, hj⟩ := List.mem_iff_getElem?.mp hx
        obtain ⟨hct, hctl, -⟩ := pipeline_stop_facts basic_route R hclean j x hj hstop
        simp [Bool.and_eq_true, hstop, hct, hctl]
    rw [hcong]
    by_cases hnil :
        calculate_charging_requirements (insertAux basic_route R R) = []
    · rw [hnil]
      rfl
    · have hlast := pipeline_last_not_stop basic_route R hclean
        ((calculate_charging_requirements (insertAux basic_route R R)).getLast hnil)
        (List.getLast?_eq_getLast _ hnil)
      conv_lhs => rw [← List.dropLast_append_getLast hnil]
      rw [List.countP_append]
      simp [List.countP_cons, hlast]
  · intro i s hi hstop
    constructor
    · intro _
      obtain ⟨-, -, next, hn, -⟩ :=
        pipeline_stop_facts basic_route R hclean i s hi hstop
      exact (List.getElem?_eq_some.mp hn).1
    · intro _
      obtain ⟨hct, hctl, -⟩ :=
        pipeline_stop_facts basic_route R hclean i s hi hstop
      exact ⟨hct, hctl⟩

/-- Witness for C9 on the worked scenario (one completed stop). -/
theorem charging_stop_summary_spec_witness :
    (calculate_route [legAB, legBC] 300).charging_stops.length =
      ((calculate_route [legAB, legBC] 300).route_segments.dropLast.countP
        (fun s => s.is_charging_stop)) :=
  (charging_stop_summary_spec [legAB, legBC] 300 (by norm_num) (by decide)).1

/-- C10: every charging stop in the summary sits at the end location of a
charging-stop segment whose following leg — the insufficient leg that
triggered the stop — starts at exactly the same latitude and longitude: the
fabricated station is co-located with the query point and the summary copies
the stop segment's end location. -/
theorem charging_stop_location_spec (basic_route : List RouteSegment) (R : ℚ)
    (hR : 0 < R) (hclean : ∀ s ∈ basic_route, s.is_charging_stop = false) :
    ∀ st ∈ (calculate_route basic_route R).charging_stops,
      ∃ (i : ℕ) (s next : RouteSegment),
        (calculate_route basic_route R).route_segments[i]? = some s ∧
        (calculate_route basic_route R).route_segments[i + 1]? = some next ∧
        s.is_charging_stop = true ∧ next.is_charging_stop = false ∧
        st.location = s.end_location ∧
        st.location.latitude = next.start_location.latitude ∧
        st.location.longitude = next.start_location.longitude := by
  rw [calculate_route_segments_eq, calculate_route_stops_eq]
  intro st hst
  obtain ⟨i, s, hi, hstop, hloc⟩ := extract_charging_stops_mem _ st hst
  obtain ⟨-, -, next, hn, hnstop, hlat, hlng⟩ :=
    pipeline_stop_facts basic_route R hclean i s hi hstop
  exact ⟨i, s, next, hi, hn, hstop, hnstop, hloc,
    by rw [hloc]; exact hlat, by rw [hloc]; exact hlng⟩

/-- Witness for C10: the single summary stop of the worked scenario is
co-located with the start of the 100 km leg that triggered it. -/
theorem charging_stop_location_spec_witness :
    ∃ (i : ℕ) (s next : RouteSegment),
      (calculate_route [legAB, legBC] 300).route_segments[i]? = some s ∧
      (calculate_route [legAB, legBC] 300).route_segments[i + 1]? = some next ∧
      s.is_charging_stop = true ∧ next.is_charging_stop = false ∧
      ({ location := find_nearest_charging_station locB,
         charging_time := min 100 (legBC.distance / 300 * 100 + 20) / 20 * 15,
         charge_to_level := min 100 (legBC.distance / 300 * 100 + 20) } :
           ChargingStop).location = s.end_location ∧
      ({ location := find_nearest_charging_station locB,
         charging_time := min 100 (legBC.distance / 300 * 100 + 20) / 20 * 15,
         charge_to_level := min 100 (legBC.distance / 300 * 100 + 20) } :
           ChargingStop).location.latitude = next.start_location.latitude ∧
      ({ location := find_nearest_charging_station locB,
         charging_time := min 100 (legBC.distance / 300 * 100 + 20) / 20 * 15,
         charge_to_level := min 100 (legBC.distance / 300 * 100 + 20) } :
           ChargingStop).location.longitude = next.start_location.longitude := by
  have hins : insertAux [legAB, legBC] (300 : ℚ) 300 =
      [legAB, chargingSegmentFor legBC, legBC] := by
    rw [insertAux, if_pos (show legAB.distance ≤ 300 by norm_num [legAB]),
      insertAux,
      if_neg (show ¬ legBC.distance ≤ 300 - legAB.distance by
        norm_num [legAB, legBC]),
      insertAux]
  have hcalc : calculate_charging_requirements
      [legAB, chargingSegmentFor legBC, legBC] =
      [legAB, updateChargingSegment (chargingSegmentFor legBC) legBC, legBC] := by
    rw [calculate_charging_requirements, calculate_charging_requirements,
      calculate_charging_requirements]
    simp [legAB, chargingSegmentFor]
  have hstops : (calculate_route [legAB, legBC] 300).charging_stops =
      [{ location := find_nearest_charging_station locB,
         charging_time := min 100 (legBC.distance / 300 * 100 + 20) / 20 * 15,
         charge_to_level := min 100 (legBC.distance / 300 * 100 + 20) }] := by
    rw [calculate_route_stops_eq, hins, hcalc]
    simp [extract_charging_stops, legAB, legBC, updateChargingSegment,
      chargingSegmentFor]
  exact charging_stop_location_spec [legAB, legBC] 300 (by norm_num) (by decide)
    _ (by rw [hstops]; exact List.mem_cons_self _ _)

end EVrouter
